import Mathlib

/-!
Verification development for the Stock-Tracker repository (src/strategies.py).

The engines and metric calculators operate on pandas Series of float64
values.  We embed a pandas cell as `PV`: either NaN, +inf, -inf, or a
finite value (modelled as a rational).  The arithmetic on `PV` follows
IEEE-754 / pandas semantics for the operations the source performs
(comparisons with NaN are false, 0/0 is NaN, x/0 is a signed infinity,
pandas division by zero produces inf rather than raising, etc.).
Closing prices themselves are plain rationals (the upstream provider
guarantees a clean numeric Close column).
-/

set_option allowUnsafeReducibility true in
attribute [semireducible] Rat.add Rat.sub Rat.mul Rat.inv Rat.ofScientific

/-- Model of one pandas float cell: NaN, +inf, -inf, or a finite value. -/
inductive PV where
  | nan : PV
  | pinf : PV
  | ninf : PV
  | fin : ℚ → PV
deriving DecidableEq

/-- IEEE-style addition on pandas cells. -/
def PV.add : PV → PV → PV
  | .nan, _ => .nan
  | _, .nan => .nan
  | .pinf, .ninf => .nan
  | .ninf, .pinf => .nan
  | .pinf, _ => .pinf
  | _, .pinf => .pinf
  | .ninf, _ => .ninf
  | _, .ninf => .ninf
  | .fin a, .fin b => .fin (a + b)

/-- IEEE-style negation on pandas cells. -/
def PV.neg : PV → PV
  | .nan => .nan
  | .pinf => .ninf
  | .ninf => .pinf
  | .fin a => .fin (-a)

/-- IEEE-style subtraction on pandas cells. -/
def PV.sub (a b : PV) : PV := a.add b.neg

/-- IEEE-style multiplication on pandas cells (inf times 0 is NaN). -/
def PV.mul : PV → PV → PV
  | .nan, _ => .nan
  | _, .nan => .nan
  | .pinf, .pinf => .pinf
  | .pinf, .ninf => .ninf
  | .ninf, .pinf => .ninf
  | .ninf, .ninf => .pinf
  | .pinf, .fin b => if 0 < b then .pinf else if b < 0 then .ninf else .nan
  | .fin a, .pinf => if 0 < a then .pinf else if a < 0 then .ninf else .nan
  | .ninf, .fin b => if 0 < b then .ninf else if b < 0 then .pinf else .nan
  | .fin a, .ninf => if 0 < a then .ninf else if a < 0 then .pinf else .nan
  | .fin a, .fin b => .fin (a * b)

/-- Division with pandas semantics: x/0 is a signed infinity, 0/0 is NaN
(pandas suppresses numpy's zero-division and produces inf/NaN values). -/
def PV.div : PV → PV → PV
  | .nan, _ => .nan
  | _, .nan => .nan
  | .pinf, .pinf => .nan
  | .pinf, .ninf => .nan
  | .ninf, .pinf => .nan
  | .ninf, .ninf => .nan
  | .fin _, .pinf => .fin 0
  | .fin _, .ninf => .fin 0
  | .pinf, .fin b => if b < 0 then .ninf else .pinf
  | .ninf, .fin b => if b < 0 then .pinf else .ninf
  | .fin a, .fin b =>
      if b = 0 then (if 0 < a then .pinf else if a < 0 then .ninf else .nan)
      else .fin (a / b)

/-- Truth of `v > q` for a cell and a rational threshold; false on NaN,
matching pandas comparison semantics. -/
def PV.gtQ : PV → ℚ → Bool
  | .nan, _ => false
  | .pinf, _ => true
  | .ninf, _ => false
  | .fin a, q => decide (q < a)

/-- Truth of `v < q` for a cell and a rational threshold; false on NaN. -/
def PV.ltQ : PV → ℚ → Bool
  | .nan, _ => false
  | .pinf, _ => false
  | .ninf, _ => true
  | .fin a, q => decide (a < q)

/-- Truth of `a < b` for two cells; false when either side is NaN. -/
def PV.ltP : PV → PV → Bool
  | .nan, _ => false
  | _, .nan => false
  | .pinf, _ => false
  | _, .pinf => true
  | .ninf, .ninf => false
  | .ninf, .fin _ => true
  | .fin _, .ninf => false
  | .fin a, .fin b => decide (a < b)

/-- Test for NaN. -/
def PV.isNaN : PV → Bool
  | .nan => true
  | _ => false

/-- Test for a finite cell. -/
def PV.isFin : PV → Bool
  | .fin _ => true
  | _ => false

/-- Rational content of a finite cell (0 on non-finite cells). -/
def PV.toQ : PV → ℚ
  | .fin q => q
  | _ => 0

/-- Maximum of two cells, skipping NaN (the behaviour of pandas max
aggregations, which ignore missing values). -/
def PV.maxP : PV → PV → PV
  | .nan, b => b
  | a, .nan => a
  | .pinf, _ => .pinf
  | _, .pinf => .pinf
  | .ninf, b => b
  | a, .ninf => a
  | .fin a, .fin b => .fin (max a b)

/-- Minimum of two cells, skipping NaN. -/
def PV.minP : PV → PV → PV
  | .nan, b => b
  | a, .nan => a
  | .ninf, _ => .ninf
  | _, .ninf => .ninf
  | .pinf, b => b
  | a, .pinf => a
  | .fin a, .fin b => .fin (min a b)

/-!
Column combinators.  A pandas column over a price list `cs : List ℚ` is
modelled as a total function `ℕ → PV` giving the cell at each row
position; positions at and beyond `cs.length` are never used by the row
builders below.
-/

/-- Model of the Close column: the close price at row `t`. -/
def closeAt (cs : List ℚ) (t : ℕ) : PV :=
  match (cs[t]?) with
  | some x => PV.fin x
  | none => PV.nan

/-- Model of `df['Close'].pct_change()` (src/strategies.py:30,83): NaN at
row 0, `(close[t] - close[t-1]) / close[t-1]` afterwards, with pandas
division semantics. -/
def returnsAt (cs : List ℚ) : ℕ → PV
  | 0 => PV.nan
  | t + 1 =>
      match (cs[t + 1]?), (cs[t]?) with
      | some x, some y => PV.div (PV.fin (x - y)) (PV.fin y)
      | _, _ => PV.nan

/-- Model of `df['Close'].diff()` (src/strategies.py:96): NaN at row 0,
`close[t] - close[t-1]` afterwards. -/
def diffAt (cs : List ℚ) : ℕ → PV
  | 0 => PV.nan
  | t + 1 =>
      match (cs[t + 1]?), (cs[t]?) with
      | some x, some y => PV.fin (x - y)
      | _, _ => PV.nan

/-- Trailing window of width `w` ending at row `t`, as the list of cells
`f t, f (t-1), ..., f (t-w+1)`. -/
def windowList (f : ℕ → PV) (w t : ℕ) : List PV :=
  (List.range w).map (fun i => f (t - i))

/-- Sum of a list of cells. -/
def sumPV (xs : List PV) : PV := xs.foldl PV.add (PV.fin 0)

/-- Model of `.rolling(window=w).sum()` with the default
`min_periods = w`: the window must be full (`t + 1 ≥ w`) and contain no
NaN, otherwise the cell is NaN.  (pandas requires a positive window; all
theorems below only instantiate `w ≥ 1`.) -/
def rollSumAt (f : ℕ → PV) (w t : ℕ) : PV :=
  if w = 0 ∨ t + 1 < w then PV.nan
  else if (windowList f w t).any PV.isNaN then PV.nan
  else sumPV (windowList f w t)

/-- Model of `.rolling(window=w).mean()`: the rolling sum divided by the
window width. -/
def rollMeanAt (f : ℕ → PV) (w t : ℕ) : PV :=
  PV.div (rollSumAt f w t) (PV.fin (w : ℚ))

/-!
Signal post-processing shared by both engines.
-/

/-- Model of `df['signal'].replace(0, np.nan).ffill().fillna(0)`
(src/strategies.py:47,125): a raw 0 carries the last non-zero raw signal
forward, and 0 stands before any non-zero signal has occurred. -/
def ffillSignal (raw : ℕ → Int) : ℕ → Int
  | 0 => raw 0
  | t + 1 => if raw (t + 1) = 0 then ffillSignal raw t else raw (t + 1)

/-- Model of `df['signal'].shift(1) * df['returns']`
(src/strategies.py:50,128): NaN at row 0 (the shifted signal is missing
there), and the previous row's filled signal times today's return
afterwards. -/
def stratAt (sig : ℕ → Int) (ret : ℕ → PV) : ℕ → PV
  | 0 => PV.nan
  | t + 1 => PV.mul (PV.fin ((sig t : Int) : ℚ)) (ret (t + 1))

/-- Model of `df['strategy_return'].fillna(0)`: missing strategy returns
are replaced by 0 before compounding. -/
def stratFillAt (strat : ℕ → PV) (t : ℕ) : PV :=
  if (strat t).isNaN then PV.fin 0 else strat t

/-- Running product of `1 + strategy_return.fillna(0)`, the accumulator of
`(1 + df['strategy_return'].fillna(0)).cumprod()` (src/strategies.py:51,129). -/
def cumFactorAt (strat : ℕ → PV) : ℕ → PV
  | 0 => PV.add (PV.fin 1) (stratFillAt strat 0)
  | t + 1 => PV.mul (cumFactorAt strat t) (PV.add (PV.fin 1) (stratFillAt strat (t + 1)))

/-- Model of the `cumulative_return` column: the running product minus 1. -/
def cumAt (strat : ℕ → PV) (t : ℕ) : PV :=
  PV.sub (cumFactorAt strat t) (PV.fin 1)

/-!
Momentum engine columns (src/strategies.py:24-57).
-/

/-- Model of `df['returns'].rolling(window=lookback).sum()`
(src/strategies.py:31). -/
def momRollRet (cs : List ℚ) (lb t : ℕ) : PV := rollSumAt (returnsAt cs) lb t

/-- Model of `df['Close'].rolling(window=lookback).mean()`
(src/strategies.py:34). -/
def momMA (cs : List ℚ) (lb t : ℕ) : PV := rollMeanAt (closeAt cs) lb t

/-- Model of `df['momentum_ratio'] = df['Close'] / df['price_ma']`
(src/strategies.py:35). -/
def momRatioAt (cs : List ℚ) (lb t : ℕ) : PV :=
  PV.div (closeAt cs t) (momMA cs lb t)

/-- Model of the nested `np.where` raw signal (src/strategies.py:39-44):
+1 when `rolling_return > 0` and `momentum_ratio > 1.02`, else -1 when
`rolling_return < 0` or `momentum_ratio < 0.98`, else 0.  Comparisons
against NaN are false. -/
def momRaw (cs : List ℚ) (lb t : ℕ) : Int :=
  if (momRollRet cs lb t).gtQ 0 && (momRatioAt cs lb t).gtQ (51 / 50) then 1
  else if (momRollRet cs lb t).ltQ 0 || (momRatioAt cs lb t).ltQ (49 / 50) then -1
  else 0

/-- The forward-filled momentum signal column (src/strategies.py:47). -/
def momSignal (cs : List ℚ) (lb : ℕ) : ℕ → Int := ffillSignal (momRaw cs lb)

/-- The momentum `strategy_return` column (src/strategies.py:50). -/
def momStrat (cs : List ℚ) (lb : ℕ) : ℕ → PV :=
  stratAt (momSignal cs lb) (returnsAt cs)

/-- The momentum `cumulative_return` column (src/strategies.py:51). -/
def momCum (cs : List ℚ) (lb : ℕ) : ℕ → PV := cumAt (momStrat cs lb)

/-- One emitted row: the columns the engines keep
(src/strategies.py:54,132).  `diagA` is `momentum_ratio` respectively
`value_ratio`; `diagB` is `rolling_return` respectively `rsi`. -/
structure SignalRow where
  signal : Int
  strategyReturn : ℚ
  cumulativeReturn : ℚ
  diagA : ℚ
  diagB : ℚ
deriving DecidableEq

/-- Model of row `t` of the momentum result after `dropna()`
(src/strategies.py:54-55): kept only when every selected column is a
finite value at `t` (the filled signal column never holds NaN). -/
def momRow (cs : List ℚ) (lb t : ℕ) : Option (ℕ × SignalRow) :=
  match momStrat cs lb t, momCum cs lb t, momRatioAt cs lb t, momRollRet cs lb t with
  | PV.fin sr, PV.fin cr, PV.fin mr, PV.fin rr =>
      some (t, ⟨momSignal cs lb t, sr, cr, mr, rr⟩)
  | _, _, _, _ => none

/-- The momentum result rows, indexed by original row position. -/
def momRows (cs : List ℚ) (lb : ℕ) : List (ℕ × SignalRow) :=
  (List.range cs.length).filterMap (momRow cs lb)

/-!
Value engine columns (src/strategies.py:77-135).  The volatility and
Bollinger-band columns are computed by the source but are not among the
selected output columns, do not feed the signal conditions, and cannot
affect the result rows, so they are not modelled.
-/

/-- Model of `df['long_ma'] = df['Close'].rolling(window=lookback).mean()`
(src/strategies.py:86). -/
def valLongMA (cs : List ℚ) (lb t : ℕ) : PV := rollMeanAt (closeAt cs) lb t

/-- Model of `df['short_ma'] = df['Close'].rolling(window=lookback//4).mean()`
(src/strategies.py:87); `//` is integer division, as is `/` on `ℕ`. -/
def valShortMA (cs : List ℚ) (lb t : ℕ) : PV := rollMeanAt (closeAt cs) (lb / 4) t

/-- Model of `df['value_ratio'] = df['Close'] / df['long_ma']`
(src/strategies.py:88). -/
def valRatioAt (cs : List ℚ) (lb t : ℕ) : PV :=
  PV.div (closeAt cs t) (valLongMA cs lb t)

/-- Model of `gains = price_changes.where(price_changes > 0, 0)`
(src/strategies.py:97): keep the change where it is positive, else 0; the
NaN at row 0 compares false and becomes 0. -/
def gainsAt (cs : List ℚ) (t : ℕ) : PV :=
  if (diffAt cs t).gtQ 0 then diffAt cs t else PV.fin 0

/-- Model of `losses = -price_changes.where(price_changes < 0, 0)`
(src/strategies.py:98). -/
def lossesAt (cs : List ℚ) (t : ℕ) : PV :=
  PV.neg (if (diffAt cs t).ltQ 0 then diffAt cs t else PV.fin 0)

/-- Model of `avg_gains = gains.rolling(window=14).mean()`
(src/strategies.py:99). -/
def avgGainAt (cs : List ℚ) (t : ℕ) : PV := rollMeanAt (gainsAt cs) 14 t

/-- Model of `avg_losses = losses.rolling(window=14).mean()`
(src/strategies.py:100). -/
def avgLossAt (cs : List ℚ) (t : ℕ) : PV := rollMeanAt (lossesAt cs) 14 t

/-- Model of `rs = avg_gains / avg_losses` (src/strategies.py:101): pandas
division, so a positive average gain over a zero average loss gives +inf
and 0/0 gives NaN. -/
def rsAt (cs : List ℚ) (t : ℕ) : PV := PV.div (avgGainAt cs t) (avgLossAt cs t)

/-- Model of `df['rsi'] = 100 - (100 / (1 + rs))` (src/strategies.py:102). -/
def rsiAt (cs : List ℚ) (t : ℕ) : PV :=
  PV.sub (PV.fin 100) (PV.div (PV.fin 100) (PV.add (PV.fin 1) (rsAt cs t)))

/-- Model of the buy condition (src/strategies.py:107-111):
`value_ratio < 0.95` and `rsi < 30` and `short_ma < long_ma`. -/
def valBuy (cs : List ℚ) (lb t : ℕ) : Bool :=
  (valRatioAt cs lb t).ltQ (19 / 20) && (rsiAt cs t).ltQ 30 &&
    PV.ltP (valShortMA cs lb t) (valLongMA cs lb t)

/-- Model of the sell condition (src/strategies.py:115-119):
`value_ratio > 1.05` and `rsi > 70` and `short_ma > long_ma`. -/
def valSell (cs : List ℚ) (lb t : ℕ) : Bool :=
  (valRatioAt cs lb t).gtQ (21 / 20) && (rsiAt cs t).gtQ 70 &&
    PV.ltP (valLongMA cs lb t) (valShortMA cs lb t)

/-- Model of the nested `np.where` raw value signal (src/strategies.py:121-122). -/
def valRaw (cs : List ℚ) (lb t : ℕ) : Int :=
  if valBuy cs lb t then 1 else if valSell cs lb t then -1 else 0

/-- The forward-filled value signal column (src/strategies.py:125). -/
def valSignal (cs : List ℚ) (lb : ℕ) : ℕ → Int := ffillSignal (valRaw cs lb)

/-- The value `strategy_return` column (src/strategies.py:128). -/
def valStrat (cs : List ℚ) (lb : ℕ) : ℕ → PV :=
  stratAt (valSignal cs lb) (returnsAt cs)

/-- The value `cumulative_return` column (src/strategies.py:129). -/
def valCum (cs : List ℚ) (lb : ℕ) : ℕ → PV := cumAt (valStrat cs lb)

/-- Model of row `t` of the value result after `dropna()`
(src/strategies.py:132-133). -/
def valRow (cs : List ℚ) (lb t : ℕ) : Option (ℕ × SignalRow) :=
  match valStrat cs lb t, valCum cs lb t, valRatioAt cs lb t, rsiAt cs t with
  | PV.fin sr, PV.fin cr, PV.fin vr, PV.fin rv =>
      some (t, ⟨valSignal cs lb t, sr, cr, vr, rv⟩)
  | _, _, _, _ => none

/-- The value result rows, indexed by original row position. -/
def valRows (cs : List ℚ) (lb : ℕ) : List (ℕ × SignalRow) :=
  (List.range cs.length).filterMap (valRow cs lb)

/-!
Frame-level entry points.  A pandas DataFrame input is modelled by its
row count and its optional Open/Close columns (a malformed frame may lack
either column while still having rows coming from other columns).  A
Python call either returns a value or lets an exception escape.
-/

/-- Result of calling a Python function: a returned value, or an escaped
exception (KeyError, IndexError, ...). -/
inductive PyResult (α : Type) where
  | ok (val : α) : PyResult α
  | raised : PyResult α
deriving DecidableEq

/-- Model of the input DataFrame: number of rows plus the optional Open
and Close columns (a well-formed frame has columns of length `nrows`). -/
structure Frame where
  nrows : ℕ
  openCol : Option (List ℚ)
  closeCol : Option (List ℚ)
deriving DecidableEq

/-- Model of `MomentumStrategy.calculate` (src/strategies.py:24-57): the
guard `data.empty or len(data) < lookback` returns an empty frame first;
after the guard, `df['Close']` raises `KeyError` when the column is
missing (there is no try/except in the engine). -/
def momentumCalculate (f : Frame) (lb : ℕ) : PyResult (List (ℕ × SignalRow)) :=
  if f.nrows = 0 ∨ f.nrows < lb then .ok []
  else
    match f.closeCol with
    | some cs => .ok (momRows cs lb)
    | none => .raised

/-- Model of `ValueStrategy.calculate` (src/strategies.py:77-135), with
the same guard and the same `KeyError` on a missing Close column. -/
def valueCalculate (f : Frame) (lb : ℕ) : PyResult (List (ℕ × SignalRow)) :=
  if f.nrows = 0 ∨ f.nrows < lb then .ok []
  else
    match f.closeCol with
    | some cs => .ok (valRows cs lb)
    | none => .raised

/-- Model of `MomentumStrategy.calculate` together with the final state of
the caller's frame: the engine works on `df = data.copy()`
(src/strategies.py:27) and writes only to the copy, so the input frame is
returned unchanged. -/
def momentumCalculateSt (f : Frame) (lb : ℕ) :
    PyResult (List (ℕ × SignalRow)) × Frame :=
  (momentumCalculate f lb, f)

/-- Model of `ValueStrategy.calculate` together with the final state of
the caller's frame (src/strategies.py:80 copies the input). -/
def valueCalculateSt (f : Frame) (lb : ℕ) :
    PyResult (List (ℕ × SignalRow)) × Frame :=
  (valueCalculate f lb, f)

/-!
Metrics calculator (src/strategies.py:206-320) and strategy comparator
(src/strategies.py:142-182).
-/

/-- Model of `.dropna()` on a float column: missing values are removed
(infinities are not missing and are kept). -/
def dropNaN (xs : List PV) : List PV := xs.filter (fun v => !v.isNaN)

/-- Auxiliary for `pct_change` as a list: the cells after the first row,
given the previous close. -/
def pctChangeAux (prev : ℚ) : List ℚ → List PV
  | [] => []
  | x :: xs => PV.div (PV.fin (x - prev)) (PV.fin prev) :: pctChangeAux x xs

/-- Model of `data['Close'].pct_change()` as a list of cells: NaN first,
then the successive relative changes. -/
def pctChange : List ℚ → List PV
  | [] => []
  | x :: xs => PV.nan :: pctChangeAux x xs

/-- Model of `returns = data['Close'].pct_change().dropna()`
(src/strategies.py:233). -/
def kmReturns (cs : List ℚ) : List PV := dropNaN (pctChange cs)

/-- Model of `.cumprod()` with pandas `skipna=True`: a NaN cell yields NaN
at its position and the running product continues past it unchanged. -/
def cumprodSkip (acc : PV) : List PV → List PV
  | [] => []
  | x :: xs =>
      if x.isNaN then PV.nan :: cumprodSkip acc xs
      else PV.mul acc x :: cumprodSkip (PV.mul acc x) xs

/-- Model of `.expanding().max()`: the running maximum of the non-NaN
cells seen so far; NaN while no observation has been seen, and a NaN cell
repeats the current maximum. -/
def expMaxAux : Option PV → List PV → List PV
  | _, [] => []
  | none, x :: xs =>
      if x.isNaN then PV.nan :: expMaxAux none xs
      else x :: expMaxAux (some x) xs
  | some b, x :: xs =>
      if x.isNaN then b :: expMaxAux (some b) xs
      else PV.maxP b x :: expMaxAux (some (PV.maxP b x)) xs

/-- Model of `.expanding().max()` on a column. -/
def expandingMaxPV (xs : List PV) : List PV := expMaxAux none xs

/-- Auxiliary for `.min()`: fold carrying the best non-NaN cell so far. -/
def minAux : Option PV → List PV → Option PV
  | best, [] => best
  | none, x :: xs => if x.isNaN then minAux none xs else minAux (some x) xs
  | some b, x :: xs =>
      if x.isNaN then minAux (some b) xs else minAux (some (PV.minP b x)) xs

/-- Model of `.min()` on a column: the least non-NaN cell, NaN when the
column is empty or all-NaN (the pandas min of an empty series is NaN). -/
def minPV (xs : List PV) : PV := (minAux none xs).getD PV.nan

/-- Model of the drawdown pipeline (src/strategies.py:250-253 and
166-169) applied to a list of return cells: compound `1 + r`, take the
expanding maximum, divide the gap by the peak, and take the minimum. -/
def drawdownPV (rs : List PV) : PV :=
  minPV (List.zipWith (fun cv rm => PV.div (PV.sub cv rm) rm)
    (cumprodSkip (PV.fin 1) (rs.map (fun r => PV.add (PV.fin 1) r)))
    (expandingMaxPV (cumprodSkip (PV.fin 1) (rs.map (fun r => PV.add (PV.fin 1) r)))))

/-- Model of the Metrics Calculator's Max Drawdown
(src/strategies.py:250-253): the pipeline applied to the dropped-NaN
percentage changes of the Close column.  Note the compounded series
`(1 + returns).cumprod()` starts with `1 + r[1]`; it has no leading 1. -/
def kmMaxDrawdown (cs : List ℚ) : PV := drawdownPV (kmReturns cs)

/-- Mean of a list of rationals (0 for the empty list, as 0/0 = 0 on ℚ). -/
def meanQ (xs : List ℚ) : ℚ := xs.sum / (xs.length : ℚ)

/-- Sample variance with `ddof = 1`, the square of the pandas `.std()`.
For fewer than two observations the pandas standard deviation is NaN and
every comparison against it is false; here `varQ` is then 0, so a guard
`varQ > 0` decides exactly as the source's `std > 0` does. -/
def varQ (xs : List ℚ) : ℚ :=
  ((xs.map (fun x => (x - meanQ xs) ^ 2)).sum) / ((xs.length : ℚ) - 1)

/-- Value of a Sharpe-ratio computation.  `zero` is the exact fallback 0
the source substitutes; `val m v` stands for the well-defined real number
`(m / √v) · √252` (metrics calculator) respectively `(m · 252) / (√v · √252)`
(comparator) with `v > 0`, which the theorems never need to evaluate. -/
inductive SharpeOut where
  | zero : SharpeOut
  | val : ℚ → ℚ → SharpeOut
deriving DecidableEq

/-- Model of the Metrics Calculator's Sharpe ratio
(src/strategies.py:242-247): 0 unless there are at least two return
observations and their standard deviation is positive.  A non-finite
observation makes the float standard deviation NaN or inf... the mean
subtraction always produces a NaN term, so `std > 0` is false and the
result is again 0; hence the `all isFin` guard. -/
def kmSharpe (rs : List PV) : SharpeOut :=
  if 1 < rs.length then
    if rs.all PV.isFin && decide (0 < varQ (rs.map PV.toQ)) then
      SharpeOut.val (meanQ (rs.map PV.toQ)) (varQ (rs.map PV.toQ))
    else SharpeOut.zero
  else SharpeOut.zero

/-- Model of the Strategy Comparator's Sharpe ratio
(src/strategies.py:162-163): `(mean·252)/volatility` when
`volatility > 0`, else 0.  The volatility `std·√252` is positive exactly
when the sample variance is positive; with fewer than two observations
the pandas std is NaN, the guard is false, and the result is 0, matching
`varQ = 0` there. -/
def scSharpe (rets : List ℚ) : SharpeOut :=
  if 0 < varQ rets then SharpeOut.val (meanQ rets) (varQ rets)
  else SharpeOut.zero

/-- Result of `KeyMetricsCalculator.calculate_comprehensive_metrics`
(src/strategies.py:212-320): the empty dict for empty input, the error
marker dict from the catch-all `except`, or the metrics record.  The
fundamentals fields (P/E, P/B, dividend yield) come from a network
lookup whose failure is caught per-field and cannot affect these four
computed metrics; they are not modelled. -/
inductive KMResult where
  | empty : KMResult
  | errorMarker : KMResult
  | metrics (avgPrice cumulativeReturn : ℚ) (sharpe : SharpeOut) (maxDD : PV) : KMResult
deriving DecidableEq

/-- Model of `calculate_comprehensive_metrics` (src/strategies.py:212-320):
empty input returns `{}` before the try block; inside the try block a
missing Open/Close column (KeyError) or an empty column (IndexError from
`.iloc[0]`) is caught by the bare `except` and becomes the error marker;
otherwise the four price metrics are computed (Average Price,
src/strategies.py:236; Cumulative Return, :239; Sharpe, :242-247; Max
Drawdown, :249-253). -/
def kmCalculate (f : Frame) : KMResult :=
  if f.nrows = 0 then .empty
  else
    match f.openCol, f.closeCol with
    | some (o0 :: _), some (c0 :: ctl) =>
        .metrics ((o0 + (c0 :: ctl).getLastD 0) / 2)
          ((c0 :: ctl).getLastD 0 / o0 - 1)
          (kmSharpe (kmReturns (c0 :: ctl)))
          (kmMaxDrawdown (c0 :: ctl))
    | _, _ => .errorMarker

/-!
Rational-valued reference definitions.  These follow the specification's
words (daily return `r[t] = close[t]/close[t-1] - 1`, compounded series,
running peak, minimum drawdown) and are compared against the source
pipeline above.
-/

/-- Daily simple returns per the specification, after the first bar,
given the previous close. -/
def specReturnsAux : ℚ → List ℚ → List ℚ
  | _, [] => []
  | prev, x :: xs => (x / prev - 1) :: specReturnsAux x xs

/-- Daily simple returns of a close series per the specification:
`r[t] = close[t]/close[t-1] - 1` for `t ≥ 1`. -/
def specReturns : List ℚ → List ℚ
  | [] => []
  | x :: xs => specReturnsAux x xs

/-- Running products of a list with a starting accumulator. -/
def cumprodQ : ℚ → List ℚ → List ℚ
  | _, [] => []
  | acc, x :: xs => acc * x :: cumprodQ (acc * x) xs

/-- Running maxima of a list given the best value so far. -/
def runMaxQAux : ℚ → List ℚ → List ℚ
  | _, [] => []
  | b, x :: xs => max b x :: runMaxQAux (max b x) xs

/-- Running maxima of a list. -/
def runMaxQ : List ℚ → List ℚ
  | [] => []
  | x :: xs => x :: runMaxQAux x xs

/-- Minimum of a list given the best value so far. -/
def minQAux : ℚ → List ℚ → ℚ
  | b, [] => b
  | b, x :: xs => minQAux (min b x) xs

/-- Minimum of a non-empty list (0 for the empty list, never used there). -/
def minQ : List ℚ → ℚ
  | [] => 0
  | x :: xs => minQAux x xs

/-- Minimum drawdown of a compounded-value series: the least value of
`(cumVal[t] - runningMax(cumVal)[t]) / runningMax(cumVal)[t]`. -/
def drawdownQ (cv : List ℚ) : ℚ :=
  minQ (List.zipWith (fun a b => (a - b) / b) cv (runMaxQ cv))

/-- Max Drawdown exactly as the claim words it: the drawdown minimum over
the compounded daily-return series **starting at the value 1**, i.e. over
`1, 1+r[1], (1+r[1])(1+r[2]), ...`. -/
def kmMaxDrawdownClaimQ (cs : List ℚ) : ℚ :=
  drawdownQ (1 :: cumprodQ 1 ((specReturns cs).map (fun r => 1 + r)))

/-- Max Drawdown with the compounded series as the source actually builds
it: `1+r[1], (1+r[1])(1+r[2]), ...` without the leading 1. -/
def kmMaxDrawdownAmendedQ (cs : List ℚ) : ℚ :=
  drawdownQ (cumprodQ 1 ((specReturns cs).map (fun r => 1 + r)))


/-!
Helper lemmas.
-/

/-- The filled signal at a raw-zero position repeats the previous filled
signal (or is 0 at the first row). -/
theorem ffillSignal_raw_zero (raw : ℕ → Int) (t : ℕ) (h : raw t = 0) :
    ffillSignal raw t = if t = 0 then 0 else ffillSignal raw (t - 1) := by
  cases t with
  | zero => simpa [ffillSignal] using h
  | succ s => simp [ffillSignal, h]

/-- Before any non-zero raw signal, the filled signal is 0. -/
theorem ffillSignal_all_zero (raw : ℕ → Int) (t : ℕ)
    (h : ∀ i, i ≤ t → raw i = 0) : ffillSignal raw t = 0 := by
  induction t with
  | zero => simpa [ffillSignal] using h 0 le_rfl
  | succ s ih =>
      have hs : raw (s + 1) = 0 := h (s + 1) le_rfl
      simp only [ffillSignal, hs, if_pos rfl]
      exact ih fun i hi => h i (Nat.le_succ_of_le hi)

/-- The raw momentum signal only takes the values -1, 0, +1. -/
theorem momRaw_mem (cs : List ℚ) (lb t : ℕ) :
    momRaw cs lb t = -1 ∨ momRaw cs lb t = 0 ∨ momRaw cs lb t = 1 := by
  unfold momRaw
  split
  · exact Or.inr (Or.inr rfl)
  · split
    · exact Or.inl rfl
    · exact Or.inr (Or.inl rfl)

/-- The raw value signal only takes the values -1, 0, +1. -/
theorem valRaw_mem (cs : List ℚ) (lb t : ℕ) :
    valRaw cs lb t = -1 ∨ valRaw cs lb t = 0 ∨ valRaw cs lb t = 1 := by
  unfold valRaw
  split
  · exact Or.inr (Or.inr rfl)
  · split
    · exact Or.inl rfl
    · exact Or.inr (Or.inl rfl)

/-- Forward filling preserves the value set of the raw signal joined with 0. -/
theorem ffillSignal_mem (raw : ℕ → Int)
    (h : ∀ i, raw i = -1 ∨ raw i = 0 ∨ raw i = 1) (t : ℕ) :
    ffillSignal raw t = -1 ∨ ffillSignal raw t = 0 ∨ ffillSignal raw t = 1 := by
  induction t with
  | zero => simpa [ffillSignal] using h 0
  | succ s ih =>
      by_cases hz : raw (s + 1) = 0
      · simpa [ffillSignal, hz] using ih
      · simpa [ffillSignal, hz] using h (s + 1)

/-- Every emitted momentum row carries the filled signal column value of
its date. -/
theorem momRows_signal (cs : List ℚ) (lb : ℕ) (p : ℕ × SignalRow)
    (hp : p ∈ momRows cs lb) : p.2.signal = momSignal cs lb p.1 := by
  unfold momRows at hp
  rcases List.mem_filterMap.mp hp with ⟨t, -, ht⟩
  unfold momRow at ht
  split at ht
  · cases ht; rfl
  · exact absurd ht (by simp)

/-- Every emitted value row carries the filled signal column value of its
date. -/
theorem valRows_signal (cs : List ℚ) (lb : ℕ) (p : ℕ × SignalRow)
    (hp : p ∈ valRows cs lb) : p.2.signal = valSignal cs lb p.1 := by
  unfold valRows at hp
  rcases List.mem_filterMap.mp hp with ⟨t, -, ht⟩
  unfold valRow at ht
  split at ht
  · cases ht; rfl
  · exact absurd ht (by simp)

/-!
Claim theorems (first group).
-/

/-- C4.  Forward-fill hold invariant, both engines: at every date whose
raw threshold signal is 0 the filled signal repeats the previous date's
filled signal (0 at the first date), the filled signal is 0 while no
non-zero raw signal has occurred, and every emitted row carries the
filled signal column value of its date. -/
theorem spec_C4 (cs : List ℚ) (lb t : ℕ) :
    (momRaw cs lb t = 0 →
      momSignal cs lb t = if t = 0 then 0 else momSignal cs lb (t - 1)) ∧
    ((∀ i, i ≤ t → momRaw cs lb i = 0) → momSignal cs lb t = 0) ∧
    (valRaw cs lb t = 0 →
      valSignal cs lb t = if t = 0 then 0 else valSignal cs lb (t - 1)) ∧
    ((∀ i, i ≤ t → valRaw cs lb i = 0) → valSignal cs lb t = 0) ∧
    (∀ p, p ∈ momRows cs lb → p.2.signal = momSignal cs lb p.1) ∧
    (∀ p, p ∈ valRows cs lb → p.2.signal = valSignal cs lb p.1) :=
  ⟨ffillSignal_raw_zero _ t, ffillSignal_all_zero _ t,
   ffillSignal_raw_zero _ t, ffillSignal_all_zero _ t,
   momRows_signal cs lb, valRows_signal cs lb⟩

/-- Witness for C4 on a concrete series. -/
theorem spec_C4_wit :
    momRaw [1, 2] 1 1 = 0 ∧
    momSignal [1, 2] 1 1 = (if (1 : ℕ) = 0 then 0 else momSignal [1, 2] 1 (1 - 1)) ∧
    momSignal [1, 2] 1 1 = 0 ∧
    valRaw [1, 2] 1 1 = 0 ∧
    valSignal [1, 2] 1 1 = (if (1 : ℕ) = 0 then 0 else valSignal [1, 2] 1 (1 - 1)) ∧
    valSignal [1, 2] 1 1 = 0 ∧
    (1, (⟨0, 0, 0, 1, 1⟩ : SignalRow)).2.signal = momSignal [1, 2] 1 1 :=
  ⟨by decide, (spec_C4 [1, 2] 1 1).1 (by decide),
   (spec_C4 [1, 2] 1 1).2.1 (by decide), by decide,
   (spec_C4 [1, 2] 1 1).2.2.1 (by decide),
   (spec_C4 [1, 2] 1 1).2.2.2.1 (by decide),
   (spec_C4 [1, 2] 1 1).2.2.2.2.1 (1, ⟨0, 0, 0, 1, 1⟩) (by decide)⟩

/-- C9.  Both engines return the empty result, without an error and
without raising, for any series shorter than the lookback and for the
empty series (the guard at src/strategies.py:24-25 and 77-78). -/
theorem spec_C9 (f : Frame) (lb : ℕ) (h : f.nrows < lb ∨ f.nrows = 0) :
    momentumCalculate f lb = PyResult.ok [] ∧
    valueCalculate f lb = PyResult.ok [] := by
  have h' : f.nrows = 0 ∨ f.nrows < lb := h.symm
  constructor
  · unfold momentumCalculate
    rw [if_pos h']
  · unfold valueCalculate
    rw [if_pos h']

/-- Witness for C9 on a concrete short frame. -/
theorem spec_C9_wit :
    ((3 : ℕ) < 5 ∨ (3 : ℕ) = 0) ∧
    momentumCalculate ⟨3, some [1, 2, 3], some [1, 2, 3]⟩ 5 = PyResult.ok [] ∧
    valueCalculate ⟨3, some [1, 2, 3], some [1, 2, 3]⟩ 5 = PyResult.ok [] :=
  ⟨by decide, spec_C9 ⟨3, some [1, 2, 3], some [1, 2, 3]⟩ 5 (by decide)⟩

/-- C10.  Every filled signal value (hence every emitted row's signal) is
-1, 0 or +1, and the engines leave the caller's frame unchanged: they
work on a copy of the input. -/
theorem spec_C10 (cs : List ℚ) (lb : ℕ) :
    (∀ t, momSignal cs lb t = -1 ∨ momSignal cs lb t = 0 ∨ momSignal cs lb t = 1) ∧
    (∀ t, valSignal cs lb t = -1 ∨ valSignal cs lb t = 0 ∨ valSignal cs lb t = 1) ∧
    (∀ p, p ∈ momRows cs lb → p.2.signal = -1 ∨ p.2.signal = 0 ∨ p.2.signal = 1) ∧
    (∀ p, p ∈ valRows cs lb → p.2.signal = -1 ∨ p.2.signal = 0 ∨ p.2.signal = 1) ∧
    (∀ f : Frame, (momentumCalculateSt f lb).2 = f ∧ (valueCalculateSt f lb).2 = f) := by
  refine ⟨fun t => ffillSignal_mem _ (momRaw_mem cs lb) t,
    fun t => ffillSignal_mem _ (valRaw_mem cs lb) t,
    fun p hp => ?_, fun p hp => ?_, fun f => ⟨rfl, rfl⟩⟩
  · rw [momRows_signal cs lb p hp]
    exact ffillSignal_mem _ (momRaw_mem cs lb) _
  · rw [valRows_signal cs lb p hp]
    exact ffillSignal_mem _ (valRaw_mem cs lb) _

/-- Witness for C10 on concrete rows of both engines. -/
theorem spec_C10_wit :
    ((1, (⟨0, 0, 0, 1, 1⟩ : SignalRow)).2.signal = -1 ∨
     (1, (⟨0, 0, 0, 1, 1⟩ : SignalRow)).2.signal = 0 ∨
     (1, (⟨0, 0, 0, 1, 1⟩ : SignalRow)).2.signal = 1) ∧
    ((13, (⟨-1, 0, 0, 28/25, 100⟩ : SignalRow)).2.signal = -1 ∨
     (13, (⟨-1, 0, 0, 28/25, 100⟩ : SignalRow)).2.signal = 0 ∨
     (13, (⟨-1, 0, 0, 28/25, 100⟩ : SignalRow)).2.signal = 1) ∧
    (momentumCalculateSt ⟨2, none, some [1, 2]⟩ 1).2 = ⟨2, none, some [1, 2]⟩ :=
  ⟨(spec_C10 [1, 2] 1).2.2.1 (1, ⟨0, 0, 0, 1, 1⟩) (by decide),
   (spec_C10 [1, 2, 3, 4, 5, 6, 7, 8, 9, 10, 11, 12, 13, 14, 15] 4).2.2.2.1
     (13, ⟨-1, 0, 0, 28/25, 100⟩) (by decide),
   ((spec_C10 [1, 2] 1).2.2.2.2 ⟨2, none, some [1, 2]⟩).1⟩

/-- Counterexample for C2: a one-row frame without a Close column, with
lookback 1, is non-empty and at least lookback long, yet
`MomentumStrategy.calculate` raises (KeyError at src/strategies.py:30)
instead of returning an empty result. -/
theorem spec_C2_cex :
    (momentumCalculate ⟨1, none, none⟩ 1 = PyResult.ok []) = False ∧
    momentumCalculate ⟨1, none, none⟩ 1 = PyResult.raised :=
  ⟨eq_false (by decide), by decide⟩

/-- C2 (amended).  The engines return the empty result without raising
only for empty or too-short input; a malformed non-empty input of at
least lookback length with no Close column makes both engines raise
(there is no try/except in the engines), while the Metrics Calculator
catches the malformed shape inside its `try` and returns the error
marker rather than raising. -/
theorem spec_C2 :
    (∀ (f : Frame) (lb : ℕ), f.nrows = 0 ∨ f.nrows < lb →
      momentumCalculate f lb = PyResult.ok [] ∧
      valueCalculate f lb = PyResult.ok []) ∧
    (∀ (f : Frame) (lb : ℕ), f.closeCol = none → ¬(f.nrows = 0 ∨ f.nrows < lb) →
      momentumCalculate f lb = PyResult.raised ∧
      valueCalculate f lb = PyResult.raised) ∧
    (∀ f : Frame, f.nrows ≠ 0 → f.openCol = none ∨ f.closeCol = none →
      kmCalculate f = KMResult.errorMarker) := by
  refine ⟨fun f lb h => ?_, fun f lb hc h => ?_, fun f hn hcol => ?_⟩
  · constructor
    · unfold momentumCalculate
      rw [if_pos h]
    · unfold valueCalculate
      rw [if_pos h]
  · constructor
    · unfold momentumCalculate
      rw [if_neg h, hc]
    · unfold valueCalculate
      rw [if_neg h, hc]
  · rcases f with ⟨n, oc, cc⟩
    unfold kmCalculate
    rw [if_neg hn]
    rcases hcol with h | h <;> simp only at h <;> subst h
    · rcases cc with _ | ⟨_ | ⟨c0, ctl⟩⟩ <;> rfl
    · rcases oc with _ | ⟨_ | ⟨o0, otl⟩⟩ <;> rfl

/-- Witness for C2 at concrete frames. -/
theorem spec_C2_wit :
    momentumCalculate ⟨0, none, none⟩ 5 = PyResult.ok [] ∧
    valueCalculate ⟨0, none, none⟩ 5 = PyResult.ok [] ∧
    momentumCalculate ⟨2, none, none⟩ 1 = PyResult.raised ∧
    valueCalculate ⟨2, none, none⟩ 1 = PyResult.raised ∧
    kmCalculate ⟨3, none, some [1, 2, 3]⟩ = KMResult.errorMarker :=
  ⟨(spec_C2.1 ⟨0, none, none⟩ 5 (by decide)).1,
   (spec_C2.1 ⟨0, none, none⟩ 5 (by decide)).2,
   (spec_C2.2.1 ⟨2, none, none⟩ 1 rfl (by decide)).1,
   (spec_C2.2.1 ⟨2, none, none⟩ 1 rfl (by decide)).2,
   spec_C2.2.2 ⟨3, none, some [1, 2, 3]⟩ (by decide) (Or.inl rfl)⟩

/-- Counterexample for C3: on the empty series the Metrics Calculator
returns the plain empty dict (src/strategies.py:223-224), which contains
no error marker record. -/
theorem spec_C3_cex :
    (kmCalculate ⟨0, some [], some []⟩ = KMResult.errorMarker) = False ∧
    kmCalculate ⟨0, some [], some []⟩ = KMResult.empty :=
  ⟨eq_false (by decide), by decide⟩

/-- C3 (amended).  On empty input the Metrics Calculator returns the
empty dict `{}` (not an error marker); on a single-bar series the
arithmetic degrades to defined fallbacks (Sharpe 0 at
src/strategies.py:247, Max Drawdown the NaN minimum of an empty series)
inside an ordinary metrics record; and no input makes it raise — every
result is the empty dict, the error marker, or a metrics record. -/
theorem spec_C3 :
    (∀ f : Frame, f.nrows = 0 → kmCalculate f = KMResult.empty) ∧
    (∀ o0 c0 : ℚ, kmCalculate ⟨1, some [o0], some [c0]⟩ =
      KMResult.metrics ((o0 + c0) / 2) (c0 / o0 - 1) SharpeOut.zero PV.nan) ∧
    (∀ f : Frame, kmCalculate f = KMResult.empty ∨
      kmCalculate f = KMResult.errorMarker ∨
      ∃ a b s d, kmCalculate f = KMResult.metrics a b s d) := by
  refine ⟨fun f h => ?_, fun o0 c0 => rfl, fun f => ?_⟩
  · unfold kmCalculate
    rw [if_pos h]
  · rcases f with ⟨n, oc, cc⟩
    by_cases hn : n = 0
    · subst hn
      exact Or.inl rfl
    · rcases oc with _ | ⟨_ | ⟨o0, otl⟩⟩ <;> rcases cc with _ | ⟨_ | ⟨c0, ctl⟩⟩
      on_goal 9 => exact Or.inr (Or.inr ⟨(o0 + (c0 :: ctl).getLastD 0) / 2,
        (c0 :: ctl).getLastD 0 / o0 - 1, kmSharpe (kmReturns (c0 :: ctl)),
        kmMaxDrawdown (c0 :: ctl), by unfold kmCalculate; rw [if_neg hn]⟩)
      all_goals exact Or.inr (Or.inl (by unfold kmCalculate; rw [if_neg hn]))

/-- Witness for C3 at concrete frames. -/
theorem spec_C3_wit :
    kmCalculate ⟨0, none, none⟩ = KMResult.empty ∧
    kmCalculate ⟨1, some [100], some [110]⟩ =
      KMResult.metrics ((100 + 110) / 2) (110 / 100 - 1) SharpeOut.zero PV.nan ∧
    (kmCalculate ⟨2, none, none⟩ = KMResult.empty ∨
      kmCalculate ⟨2, none, none⟩ = KMResult.errorMarker ∨
      ∃ a b s d, kmCalculate ⟨2, none, none⟩ = KMResult.metrics a b s d) :=
  ⟨spec_C3.1 ⟨0, none, none⟩ rfl, spec_C3.2.1 100 110,
   spec_C3.2.2 ⟨2, none, none⟩⟩

/-!
Compounding lemmas for C6.
-/

/-- With positive closes every percentage-change cell is NaN or finite
(never an infinity, since no division by zero occurs). -/
theorem returnsAt_ok (cs : List ℚ) (hpos : ∀ x ∈ cs, 0 < x) (i : ℕ) :
    returnsAt cs i = PV.nan ∨ ∃ q, returnsAt cs i = PV.fin q := by
  cases i with
  | zero => exact Or.inl rfl
  | succ s =>
      simp only [returnsAt]
      cases h1 : cs[s + 1]? with
      | none => exact Or.inl rfl
      | some x =>
          cases h2 : cs[s]? with
          | none => exact Or.inl rfl
          | some y =>
              have hy : 0 < y := hpos y (List.getElem?_mem h2)
              refine Or.inr ⟨(x - y) / y, ?_⟩
              simp [PV.div, hy.ne']

/-- A strategy-return cell built from a NaN-or-finite return column is
itself NaN or finite. -/
theorem stratAt_ok (sig : ℕ → Int) (ret : ℕ → PV)
    (hret : ∀ i, ret i = PV.nan ∨ ∃ q, ret i = PV.fin q) (i : ℕ) :
    stratAt sig ret i = PV.nan ∨ ∃ q, stratAt sig ret i = PV.fin q := by
  cases i with
  | zero => exact Or.inl rfl
  | succ s =>
      simp only [stratAt]
      rcases hret (s + 1) with h | ⟨q, h⟩
      · rw [h]
        exact Or.inl rfl
      · rw [h]
        exact Or.inr ⟨_, rfl⟩

/-- Filling a NaN-or-finite cell with 0 gives exactly its rational
content as a finite cell. -/
theorem stratFillAt_eq (strat : ℕ → PV)
    (h : ∀ i, strat i = PV.nan ∨ ∃ q, strat i = PV.fin q) (i : ℕ) :
    stratFillAt strat i = PV.fin ((strat i).toQ) := by
  unfold stratFillAt
  rcases h i with hh | ⟨q, hh⟩ <;> rw [hh] <;> rfl

/-- The running compounding factor is the finite product of
`1 + strategy_return[i]` over the rows so far, a missing return
contributing the factor 1. -/
theorem cumFactorAt_eq (strat : ℕ → PV)
    (h : ∀ i, strat i = PV.nan ∨ ∃ q, strat i = PV.fin q) (t : ℕ) :
    cumFactorAt strat t =
      PV.fin (((List.range (t + 1)).map (fun i => 1 + (strat i).toQ)).prod) := by
  induction t with
  | zero =>
      simp only [cumFactorAt]
      rw [stratFillAt_eq strat h 0]
      simp [PV.add, List.range_succ]
  | succ s ih =>
      have hstep : ((List.range (s + 1 + 1)).map (fun i => 1 + (strat i).toQ)).prod
          = ((List.range (s + 1)).map (fun i => 1 + (strat i).toQ)).prod *
            (1 + (strat (s + 1)).toQ) := by
        rw [List.range_succ, List.map_append, List.prod_append,
          List.map_singleton, List.prod_singleton]
      simp only [cumFactorAt]
      rw [ih, stratFillAt_eq strat h (s + 1), hstep]
      simp [PV.add, PV.mul]

/-- The cumulative-return cell is the compounded product minus one. -/
theorem cumAt_eq (strat : ℕ → PV)
    (h : ∀ i, strat i = PV.nan ∨ ∃ q, strat i = PV.fin q) (t : ℕ) :
    cumAt strat t =
      PV.fin ((((List.range (t + 1)).map (fun i => 1 + (strat i).toQ)).prod) - 1) := by
  unfold cumAt
  rw [cumFactorAt_eq strat h t]
  simp [PV.sub, PV.add, PV.neg, sub_eq_add_neg]

/-- C6.  Cumulative-return compounding, both engines: for every date the
`cumulative_return` cell equals the product of `1 + strategy_return[i]`
over all dates from the start through that date, minus 1, where a
missing (warm-up) strategy return has content 0 and so contributes the
factor 1; and re-running an engine on the same input reproduces the same
output.  (Positive closes — the upstream data invariant — keep every
return finite.) -/
theorem spec_C6 (cs : List ℚ) (lb t : ℕ) (hpos : ∀ x ∈ cs, 0 < x) :
    momCum cs lb t =
      PV.fin ((((List.range (t + 1)).map
        (fun i => 1 + (momStrat cs lb i).toQ)).prod) - 1) ∧
    valCum cs lb t =
      PV.fin ((((List.range (t + 1)).map
        (fun i => 1 + (valStrat cs lb i).toQ)).prod) - 1) ∧
    (∀ f : Frame, momentumCalculate f lb = momentumCalculate f lb ∧
      valueCalculate f lb = valueCalculate f lb) :=
  ⟨cumAt_eq _ (stratAt_ok _ _ (returnsAt_ok cs hpos)) t,
   cumAt_eq _ (stratAt_ok _ _ (returnsAt_ok cs hpos)) t,
   fun _ => ⟨rfl, rfl⟩⟩

/-- Witness for C6 on a concrete series. -/
theorem spec_C6_wit :
    (∀ x ∈ ([1, 2] : List ℚ), 0 < x) ∧
    momCum [1, 2] 1 1 =
      PV.fin ((((List.range 2).map
        (fun i => 1 + (momStrat [1, 2] 1 i).toQ)).prod) - 1) ∧
    valCum [1, 2] 1 1 =
      PV.fin ((((List.range 2).map
        (fun i => 1 + (valStrat [1, 2] 1 i).toQ)).prod) - 1) :=
  ⟨by decide, (spec_C6 [1, 2] 1 1 (by decide)).1, (spec_C6 [1, 2] 1 1 (by decide)).2.1⟩

/-!
Prefix-congruence lemmas for C5: every column cell at date `i` is
determined by the closes at dates up to `i`.
-/

/-- The Close cell depends only on the close at its own date. -/
theorem closeAt_congr {cs ds : List ℚ} {i : ℕ} (h : cs[i]? = ds[i]?) :
    closeAt cs i = closeAt ds i := by
  unfold closeAt
  rw [h]

/-- The return cell depends only on closes at dates up to its own. -/
theorem returnsAt_congr {cs ds : List ℚ} {i : ℕ}
    (hc : ∀ j, j ≤ i → cs[j]? = ds[j]?) : returnsAt cs i = returnsAt ds i := by
  cases i with
  | zero => rfl
  | succ s =>
      simp only [returnsAt]
      rw [hc (s + 1) le_rfl, hc s (Nat.le_succ s)]

/-- The difference cell depends only on closes at dates up to its own. -/
theorem diffAt_congr {cs ds : List ℚ} {i : ℕ}
    (hc : ∀ j, j ≤ i → cs[j]? = ds[j]?) : diffAt cs i = diffAt ds i := by
  cases i with
  | zero => rfl
  | succ s =>
      simp only [diffAt]
      rw [hc (s + 1) le_rfl, hc s (Nat.le_succ s)]

/-- A rolling sum at date `i` depends only on the cells at dates up to `i`. -/
theorem rollSumAt_congr (f g : ℕ → PV) (w i : ℕ)
    (hfg : ∀ j, j ≤ i → f j = g j) : rollSumAt f w i = rollSumAt g w i := by
  have hw : windowList f w i = windowList g w i := by
    unfold windowList
    exact List.map_congr_left fun k _ => hfg (i - k) (Nat.sub_le i k)
  unfold rollSumAt
  rw [hw]

/-- A rolling mean at date `i` depends only on the cells at dates up to `i`. -/
theorem rollMeanAt_congr (f g : ℕ → PV) (w i : ℕ)
    (hfg : ∀ j, j ≤ i → f j = g j) : rollMeanAt f w i = rollMeanAt g w i := by
  unfold rollMeanAt
  rw [rollSumAt_congr f g w i hfg]

/-- Momentum rolling return: prefix congruence. -/
theorem momRollRet_congr {cs ds : List ℚ} (lb : ℕ) {i : ℕ}
    (hc : ∀ j, j ≤ i → cs[j]? = ds[j]?) : momRollRet cs lb i = momRollRet ds lb i :=
  rollSumAt_congr _ _ lb i fun _ hj =>
    returnsAt_congr fun k hk => hc k (le_trans hk hj)

/-- Momentum moving average: prefix congruence. -/
theorem momMA_congr {cs ds : List ℚ} (lb : ℕ) {i : ℕ}
    (hc : ∀ j, j ≤ i → cs[j]? = ds[j]?) : momMA cs lb i = momMA ds lb i :=
  rollMeanAt_congr _ _ lb i fun j hj => closeAt_congr (hc j hj)

/-- Momentum ratio: prefix congruence. -/
theorem momRatioAt_congr {cs ds : List ℚ} (lb : ℕ) {i : ℕ}
    (hc : ∀ j, j ≤ i → cs[j]? = ds[j]?) : momRatioAt cs lb i = momRatioAt ds lb i := by
  unfold momRatioAt
  rw [closeAt_congr (hc i le_rfl), momMA_congr lb hc]

/-- Raw momentum signal: prefix congruence. -/
theorem momRaw_congr {cs ds : List ℚ} (lb : ℕ) {i : ℕ}
    (hc : ∀ j, j ≤ i → cs[j]? = ds[j]?) : momRaw cs lb i = momRaw ds lb i := by
  unfold momRaw
  rw [momRollRet_congr lb hc, momRatioAt_congr lb hc]

/-- Forward filling two pointwise-equal raw signals gives equal results. -/
theorem ffillSignal_congr (r1 r2 : ℕ → Int) (t : ℕ)
    (h : ∀ i, i ≤ t → r1 i = r2 i) : ffillSignal r1 t = ffillSignal r2 t := by
  induction t with
  | zero =>
      simp only [ffillSignal]
      exact h 0 le_rfl
  | succ s ih =>
      simp only [ffillSignal]
      rw [h (s + 1) le_rfl, ih fun i hi => h i (Nat.le_succ_of_le hi)]

/-- Filled momentum signal: prefix congruence. -/
theorem momSignal_congr {cs ds : List ℚ} (lb : ℕ) {t : ℕ}
    (hc : ∀ j, j ≤ t → cs[j]? = ds[j]?) : momSignal cs lb t = momSignal ds lb t :=
  ffillSignal_congr _ _ t fun _ hi =>
    momRaw_congr lb fun k hk => hc k (le_trans hk hi)

/-- Gain cell: prefix congruence. -/
theorem gainsAt_congr {cs ds : List ℚ} {i : ℕ}
    (hc : ∀ j, j ≤ i → cs[j]? = ds[j]?) : gainsAt cs i = gainsAt ds i := by
  unfold gainsAt
  rw [diffAt_congr hc]

/-- Loss cell: prefix congruence. -/
theorem lossesAt_congr {cs ds : List ℚ} {i : ℕ}
    (hc : ∀ j, j ≤ i → cs[j]? = ds[j]?) : lossesAt cs i = lossesAt ds i := by
  unfold lossesAt
  rw [diffAt_congr hc]

/-- Average gain: prefix congruence. -/
theorem avgGainAt_congr {cs ds : List ℚ} {i : ℕ}
    (hc : ∀ j, j ≤ i → cs[j]? = ds[j]?) : avgGainAt cs i = avgGainAt ds i :=
  rollMeanAt_congr _ _ 14 i fun _ hj =>
    gainsAt_congr fun k hk => hc k (le_trans hk hj)

/-- Average loss: prefix congruence. -/
theorem avgLossAt_congr {cs ds : List ℚ} {i : ℕ}
    (hc : ∀ j, j ≤ i → cs[j]? = ds[j]?) : avgLossAt cs i = avgLossAt ds i :=
  rollMeanAt_congr _ _ 14 i fun _ hj =>
    lossesAt_congr fun k hk => hc k (le_trans hk hj)

/-- RSI cell: prefix congruence. -/
theorem rsiAt_congr {cs ds : List ℚ} {i : ℕ}
    (hc : ∀ j, j ≤ i → cs[j]? = ds[j]?) : rsiAt cs i = rsiAt ds i := by
  unfold rsiAt rsAt
  rw [avgGainAt_congr hc, avgLossAt_congr hc]

/-- Long moving average: prefix congruence. -/
theorem valLongMA_congr {cs ds : List ℚ} (lb : ℕ) {i : ℕ}
    (hc : ∀ j, j ≤ i → cs[j]? = ds[j]?) : valLongMA cs lb i = valLongMA ds lb i :=
  rollMeanAt_congr _ _ lb i fun j hj => closeAt_congr (hc j hj)

/-- Short moving average: prefix congruence. -/
theorem valShortMA_congr {cs ds : List ℚ} (lb : ℕ) {i : ℕ}
    (hc : ∀ j, j ≤ i → cs[j]? = ds[j]?) : valShortMA cs lb i = valShortMA ds lb i :=
  rollMeanAt_congr _ _ (lb / 4) i fun j hj => closeAt_congr (hc j hj)

/-- Value ratio: prefix congruence. -/
theorem valRatioAt_congr {cs ds : List ℚ} (lb : ℕ) {i : ℕ}
    (hc : ∀ j, j ≤ i → cs[j]? = ds[j]?) : valRatioAt cs lb i = valRatioAt ds lb i := by
  unfold valRatioAt
  rw [closeAt_congr (hc i le_rfl), valLongMA_congr lb hc]

/-- Raw value signal: prefix congruence. -/
theorem valRaw_congr {cs ds : List ℚ} (lb : ℕ) {i : ℕ}
    (hc : ∀ j, j ≤ i → cs[j]? = ds[j]?) : valRaw cs lb i = valRaw ds lb i := by
  unfold valRaw valBuy valSell
  rw [valRatioAt_congr lb hc, rsiAt_congr hc, valShortMA_congr lb hc,
    valLongMA_congr lb hc]

/-- Filled value signal: prefix congruence. -/
theorem valSignal_congr {cs ds : List ℚ} (lb : ℕ) {t : ℕ}
    (hc : ∀ j, j ≤ t → cs[j]? = ds[j]?) : valSignal cs lb t = valSignal ds lb t :=
  ffillSignal_congr _ _ t fun _ hi =>
    valRaw_congr lb fun k hk => hc k (le_trans hk hi)

/-- Momentum strategy return: prefix congruence. -/
theorem momStrat_congr {cs ds : List ℚ} (lb : ℕ) {t : ℕ}
    (hc : ∀ j, j ≤ t → cs[j]? = ds[j]?) : momStrat cs lb t = momStrat ds lb t := by
  cases t with
  | zero => rfl
  | succ s =>
      simp only [momStrat, stratAt]
      rw [momSignal_congr lb fun j hj => hc j (Nat.le_succ_of_le hj),
        returnsAt_congr hc]

/-- Value strategy return: prefix congruence. -/
theorem valStrat_congr {cs ds : List ℚ} (lb : ℕ) {t : ℕ}
    (hc : ∀ j, j ≤ t → cs[j]? = ds[j]?) : valStrat cs lb t = valStrat ds lb t := by
  cases t with
  | zero => rfl
  | succ s =>
      simp only [valStrat, stratAt]
      rw [valSignal_congr lb fun j hj => hc j (Nat.le_succ_of_le hj),
        returnsAt_congr hc]

/-- C5.  No-lookahead, both engines: the strategy return at date `t+1` is
yesterday's filled signal times today's simple return
`close[t+1]/close[t] - 1`; and whenever two input series agree on all
bars up to and including some date, both engines produce the same
strategy return at that date — later bars (in particular the next bar's
price) cannot change it. -/
theorem spec_C5 (cs ds : List ℚ) (lb t : ℕ) :
    (∀ h : t + 1 < cs.length, (∀ x ∈ cs, 0 < x) →
      momStrat cs lb (t + 1) =
        PV.fin ((momSignal cs lb t : ℚ) * (cs[t + 1] / cs[t] - 1)) ∧
      valStrat cs lb (t + 1) =
        PV.fin ((valSignal cs lb t : ℚ) * (cs[t + 1] / cs[t] - 1))) ∧
    (cs.take (t + 1) = ds.take (t + 1) →
      momStrat cs lb t = momStrat ds lb t ∧ valStrat cs lb t = valStrat ds lb t) := by
  constructor
  · intro h hpos
    have ht : t < cs.length := Nat.lt_of_succ_lt h
    have e1 : cs[t + 1]? = some (cs[t + 1]) := List.getElem?_eq_getElem h
    have e2 : cs[t]? = some (cs[t]) := List.getElem?_eq_getElem ht
    have hy : 0 < cs[t] := hpos _ (List.getElem_mem ht)
    have harith : (cs[t + 1] - cs[t]) / cs[t] = cs[t + 1] / cs[t] - 1 := by
      rw [sub_div, div_self hy.ne']
    have hret : returnsAt cs (t + 1) = PV.fin (cs[t + 1] / cs[t] - 1) := by
      simp only [returnsAt]
      rw [e1, e2]
      simp only [PV.div, if_neg hy.ne']
      rw [harith]
    constructor
    · simp only [momStrat, stratAt]
      rw [hret]
      rfl
    · simp only [valStrat, stratAt]
      rw [hret]
      rfl
  · intro htake
    have hc : ∀ j, j ≤ t → cs[j]? = ds[j]? := by
      intro j hj
      have hjt : j < t + 1 := Nat.lt_succ_of_le hj
      rw [← List.getElem?_take_of_lt (l := cs) hjt, htake,
        List.getElem?_take_of_lt hjt]
    exact ⟨momStrat_congr lb hc, valStrat_congr lb hc⟩

/-- Witness for C5 on two concrete series that agree up to date 1 and
differ at date 2. -/
theorem spec_C5_wit :
    (1 + 1 < ([1, 2, 4] : List ℚ).length ∧ (∀ x ∈ ([1, 2, 4] : List ℚ), 0 < x)) ∧
    momStrat [1, 2, 4] 1 2 =
      PV.fin ((momSignal [1, 2, 4] 1 1 : ℚ) *
        (([1, 2, 4] : List ℚ)[2] / ([1, 2, 4] : List ℚ)[1] - 1)) ∧
    valStrat [1, 2, 4] 1 2 =
      PV.fin ((valSignal [1, 2, 4] 1 1 : ℚ) *
        (([1, 2, 4] : List ℚ)[2] / ([1, 2, 4] : List ℚ)[1] - 1)) ∧
    ([1, 2, 4] : List ℚ).take 2 = ([1, 2, 5] : List ℚ).take 2 ∧
    momStrat [1, 2, 4] 1 1 = momStrat [1, 2, 5] 1 1 ∧
    valStrat [1, 2, 4] 1 1 = valStrat [1, 2, 5] 1 1 := by
  refine ⟨⟨by decide, by decide⟩, ?_, ?_, by decide, ?_, ?_⟩
  · exact ((spec_C5 [1, 2, 4] [1, 2, 5] 1 1).1 (by decide) (by decide)).1
  · exact ((spec_C5 [1, 2, 4] [1, 2, 5] 1 1).1 (by decide) (by decide)).2
  · exact ((spec_C5 [1, 2, 4] [1, 2, 5] 1 1).2 (by decide)).1
  · exact ((spec_C5 [1, 2, 4] [1, 2, 5] 1 1).2 (by decide)).2

/-!
Sharpe lemmas for C7.
-/

/-- Sample variance of the empty list is 0 under rational arithmetic. -/
theorem varQ_nil : varQ [] = 0 := by
  simp [varQ, meanQ]

/-- Sample variance of a single observation is 0 under rational
arithmetic (pandas yields NaN there, and both make the `> 0` guard
false). -/
theorem varQ_singleton (x : ℚ) : varQ [x] = 0 := by
  simp [varQ, meanQ]

/-- Fewer than two observations give sample variance 0. -/
theorem varQ_short (rets : List ℚ) (h : rets.length < 2) : varQ rets = 0 := by
  rcases rets with _ | ⟨x, _ | ⟨y, tl⟩⟩
  · exact varQ_nil
  · exact varQ_singleton x
  · simp at h
    omega

/-- Sample variance of a constant-zero list is 0. -/
theorem varQ_replicate_zero (m : ℕ) : varQ (List.replicate m (0 : ℚ)) = 0 := by
  simp [varQ, meanQ]

/-- The metrics-calculator Sharpe is exactly 0 with fewer than two return
observations (src/strategies.py:246-247). -/
theorem kmSharpe_short (rs : List PV) (h : rs.length < 2) :
    kmSharpe rs = SharpeOut.zero := by
  unfold kmSharpe
  rw [if_neg (by omega)]

/-- The metrics-calculator Sharpe is exactly 0 when the sample variance
of the observations is 0 (the `std > 0` guard at src/strategies.py:245). -/
theorem kmSharpe_varZero (rs : List PV) (h : varQ (rs.map PV.toQ) = 0) :
    kmSharpe rs = SharpeOut.zero := by
  unfold kmSharpe
  split
  · rw [h]
    simp
  · rfl

/-- The comparator Sharpe is exactly 0 when the sample variance is 0
(the `volatility > 0` guard at src/strategies.py:163). -/
theorem scSharpe_varZero (rets : List ℚ) (h : varQ rets = 0) :
    scSharpe rets = SharpeOut.zero := by
  unfold scSharpe
  rw [h]
  simp

/-- Percentage changes of a constant series are all exactly 0. -/
theorem pctChangeAux_const (q : ℚ) (hq : q ≠ 0) (m : ℕ) :
    pctChangeAux q (List.replicate m q) = List.replicate m (PV.fin 0) := by
  induction m with
  | zero => rfl
  | succ k ih =>
      rw [List.replicate_succ]
      simp only [pctChangeAux]
      rw [ih, List.replicate_succ]
      congr 1
      simp [PV.div, hq]

/-- Dropping missing values removes a leading NaN. -/
theorem dropNaN_nan_cons (l : List PV) : dropNaN (PV.nan :: l) = dropNaN l := by
  simp [dropNaN, List.filter_cons, PV.isNaN]

/-- Dropping missing values keeps a list of finite cells. -/
theorem dropNaN_replicate_fin (m : ℕ) (x : ℚ) :
    dropNaN (List.replicate m (PV.fin x)) = List.replicate m (PV.fin x) := by
  induction m with
  | zero => rfl
  | succ k ih =>
      rw [List.replicate_succ]
      simp only [dropNaN, List.filter_cons]
      simp only [dropNaN] at ih
      simp [PV.isNaN, ih]

/-- The dropped-NaN returns of a constant positive series are `n - 1`
zero cells. -/
theorem kmReturns_replicate (n : ℕ) (q : ℚ) (hq : q ≠ 0) :
    kmReturns (List.replicate n q) = List.replicate (n - 1) (PV.fin 0) := by
  cases n with
  | zero => rfl
  | succ k =>
      unfold kmReturns
      rw [List.replicate_succ]
      simp only [pctChange]
      rw [pctChangeAux_const q hq k, dropNaN_nan_cons, dropNaN_replicate_fin]
      simp

/-- C7.  Both Sharpe computations return exactly the rational 0 — never a
NaN or an infinity — when the observations' standard deviation is 0 or
fewer than two observations exist; in particular a constant-price series
gives the Metrics Calculator a Sharpe of exactly 0. -/
theorem spec_C7 :
    (∀ rs : List PV, rs.length < 2 → kmSharpe rs = SharpeOut.zero) ∧
    (∀ rs : List PV, varQ (rs.map PV.toQ) = 0 → kmSharpe rs = SharpeOut.zero) ∧
    (∀ rets : List ℚ, varQ rets = 0 ∨ rets.length < 2 →
      scSharpe rets = SharpeOut.zero) ∧
    (∀ (n : ℕ) (q : ℚ), 0 < q →
      kmSharpe (kmReturns (List.replicate n q)) = SharpeOut.zero) := by
  refine ⟨kmSharpe_short, kmSharpe_varZero, fun rets h => ?_, fun n q hq => ?_⟩
  · rcases h with h | h
    · exact scSharpe_varZero rets h
    · exact scSharpe_varZero rets (varQ_short rets h)
  · rw [kmReturns_replicate n q hq.ne']
    rcases Nat.lt_or_ge (n - 1) 2 with h | h
    · exact kmSharpe_short _ (by simpa using h)
    · refine kmSharpe_varZero _ ?_
      rw [List.map_replicate]
      exact varQ_replicate_zero _

/-- Witness for C7 at concrete observation lists. -/
theorem spec_C7_wit :
    kmSharpe [] = SharpeOut.zero ∧
    (varQ ([PV.fin 3, PV.fin 3].map PV.toQ) = 0 ∧
      kmSharpe [PV.fin 3, PV.fin 3] = SharpeOut.zero) ∧
    (varQ [2, 2] = 0 ∧ scSharpe [2, 2] = SharpeOut.zero) ∧
    kmSharpe (kmReturns (List.replicate 4 (7 : ℚ))) = SharpeOut.zero :=
  ⟨spec_C7.1 [] (by decide),
   ⟨by decide, spec_C7.2.1 [PV.fin 3, PV.fin 3] (by decide)⟩,
   ⟨by decide, spec_C7.2.2.1 [2, 2] (Or.inl (by decide))⟩,
   spec_C7.2.2.2 4 7 (by decide)⟩

/-- Counterexample for C8: on a constant series the trailing 14-bar
average loss is 0, yet the RSI cell is NaN, not 100 — because the
average gain is also 0 and `rs = 0/0` is NaN, so `100 - 100/(1+rs)` is
NaN (src/strategies.py:101-102). -/
theorem spec_C8_cex :
    avgLossAt (List.replicate 15 (100 : ℚ)) 13 = PV.fin 0 ∧
    avgGainAt (List.replicate 15 (100 : ℚ)) 13 = PV.fin 0 ∧
    (rsiAt (List.replicate 15 (100 : ℚ)) 13 = PV.fin 100) = False :=
  ⟨by decide, by decide, eq_false (by decide)⟩

/-- C8 (amended).  When the trailing 14-bar average loss is 0 and the
average gain is positive, the RSI cell is exactly 100 (`rs = +inf`,
`100/(1+inf) = 0`); but when the average gain is also 0, `rs = 0/0` is
NaN, the RSI cell is NaN rather than 100, and the row is dropped from
the engine's output by `dropna()`. -/
theorem spec_C8 (cs : List ℚ) (t : ℕ) (g : ℚ) (lb : ℕ)
    (hL : avgLossAt cs t = PV.fin 0) :
    (avgGainAt cs t = PV.fin g → 0 < g → rsiAt cs t = PV.fin 100) ∧
    (avgGainAt cs t = PV.fin 0 → rsiAt cs t = PV.nan ∧ valRow cs lb t = none) := by
  constructor
  · intro hG hg
    unfold rsiAt rsAt
    rw [hG, hL]
    simp [PV.div, PV.add, PV.sub, PV.neg, hg]
  · intro hG
    have hr : rsAt cs t = PV.nan := by
      unfold rsAt
      rw [hG, hL]
      simp [PV.div]
    have hrsi : rsiAt cs t = PV.nan := by
      unfold rsiAt
      rw [hr]
      rfl
    refine ⟨hrsi, ?_⟩
    unfold valRow
    cases h1 : valStrat cs lb t <;> cases h2 : valCum cs lb t <;>
      cases h3 : valRatioAt cs lb t <;> simp [hrsi]

/-- Witness for C8: an increasing series (average loss 0, average gain
positive, RSI exactly 100) and a constant series (both averages 0, RSI
NaN, row dropped). -/
theorem spec_C8_wit :
    (avgLossAt [1, 2, 3, 4, 5, 6, 7, 8, 9, 10, 11, 12, 13, 14, 15] 13 = PV.fin 0 ∧
     avgGainAt [1, 2, 3, 4, 5, 6, 7, 8, 9, 10, 11, 12, 13, 14, 15] 13 = PV.fin (13 / 14) ∧
     (0 : ℚ) < 13 / 14 ∧
     rsiAt [1, 2, 3, 4, 5, 6, 7, 8, 9, 10, 11, 12, 13, 14, 15] 13 = PV.fin 100) ∧
    (avgLossAt (List.replicate 15 (5 : ℚ)) 13 = PV.fin 0 ∧
     avgGainAt (List.replicate 15 (5 : ℚ)) 13 = PV.fin 0 ∧
     rsiAt (List.replicate 15 (5 : ℚ)) 13 = PV.nan ∧
     valRow (List.replicate 15 (5 : ℚ)) 4 13 = none) :=
  ⟨⟨by decide, by decide, by decide,
    (spec_C8 [1, 2, 3, 4, 5, 6, 7, 8, 9, 10, 11, 12, 13, 14, 15] 13 (13 / 14) 4
      (by decide)).1 (by decide) (by decide)⟩,
   ⟨by decide, by decide,
    ((spec_C8 (List.replicate 15 (5 : ℚ)) 13 0 4 (by decide)).2 (by decide)).1,
    ((spec_C8 (List.replicate 15 (5 : ℚ)) 13 0 4 (by decide)).2 (by decide)).2⟩⟩

/-!
Drawdown-pipeline lemmas for C1: on all-finite columns the PV pipeline
computes the rational pipeline.
-/

/-- Dropping missing values keeps any list of finite cells. -/
theorem dropNaN_map_fin (l : List ℚ) : dropNaN (l.map PV.fin) = l.map PV.fin := by
  induction l with
  | nil => rfl
  | cons x xs ih =>
      simp only [List.map_cons, dropNaN, List.filter_cons] at ih ⊢
      simp [PV.isNaN, ih]

/-- On a positive series the percentage-change tail is the finite
embedding of the specification's daily returns `close[t]/close[t-1] - 1`. -/
theorem pctChangeAux_pos (prev : ℚ) (xs : List ℚ) (hprev : 0 < prev)
    (hxs : ∀ x ∈ xs, 0 < x) :
    pctChangeAux prev xs = (specReturnsAux prev xs).map PV.fin := by
  induction xs generalizing prev with
  | nil => rfl
  | cons x tl ih =>
      simp only [pctChangeAux, specReturnsAux, List.map_cons]
      have hx : 0 < x := hxs x (List.mem_cons_self x tl)
      congr 1
      · simp only [PV.div, if_neg hprev.ne']
        rw [sub_div, div_self hprev.ne']
      · exact ih x hx fun y hy => hxs y (List.mem_cons_of_mem x hy)

/-- On a positive series the dropped-NaN returns of the Metrics
Calculator are the finite embedding of the specification's returns. -/
theorem kmReturns_pos (cs : List ℚ) (hpos : ∀ x ∈ cs, 0 < x) :
    kmReturns cs = (specReturns cs).map PV.fin := by
  cases cs with
  | nil => rfl
  | cons x xs =>
      unfold kmReturns
      simp only [pctChange, specReturns]
      rw [pctChangeAux_pos x xs (hpos x (List.mem_cons_self x xs))
          (fun y hy => hpos y (List.mem_cons_of_mem x hy)),
        dropNaN_nan_cons, dropNaN_map_fin]

/-- Adding the cell 1 to finite cells embeds adding 1 to rationals. -/
theorem map_add_one_fin (l : List ℚ) :
    (l.map PV.fin).map (fun r => PV.add (PV.fin 1) r) =
      (l.map (fun r => 1 + r)).map PV.fin := by
  induction l with
  | nil => rfl
  | cons x xs ih =>
      simp only [List.map_cons] at ih ⊢
      rw [ih]
      rfl

/-- The skipna cumulative product of finite cells embeds the rational
running product. -/
theorem cumprodSkip_map_fin (a : ℚ) (l : List ℚ) :
    cumprodSkip (PV.fin a) (l.map PV.fin) = (cumprodQ a l).map PV.fin := by
  induction l generalizing a with
  | nil => rfl
  | cons x xs ih =>
      simp only [List.map_cons, cumprodSkip, cumprodQ, PV.isNaN,
        Bool.false_eq_true, if_false]
      show PV.fin (a * x) :: cumprodSkip (PV.fin (a * x)) (xs.map PV.fin) = _
      rw [ih (a * x)]

/-- The expanding maximum over finite cells, with a finite best-so-far,
embeds the rational running maximum. -/
theorem expMaxAux_some_fin (b : ℚ) (l : List ℚ) :
    expMaxAux (some (PV.fin b)) (l.map PV.fin) = (runMaxQAux b l).map PV.fin := by
  induction l generalizing b with
  | nil => rfl
  | cons x xs ih =>
      simp only [List.map_cons, expMaxAux, runMaxQAux, PV.isNaN,
        Bool.false_eq_true, if_false]
      show PV.fin (max b x) :: expMaxAux (some (PV.fin (max b x))) (xs.map PV.fin) = _
      rw [ih (max b x)]

/-- The expanding maximum of a finite column embeds the rational running
maximum. -/
theorem expandingMax_map_fin (l : List ℚ) :
    expandingMaxPV (l.map PV.fin) = (runMaxQ l).map PV.fin := by
  cases l with
  | nil => rfl
  | cons x xs =>
      unfold expandingMaxPV
      simp only [List.map_cons, expMaxAux, runMaxQ, PV.isNaN,
        Bool.false_eq_true, if_false]
      rw [expMaxAux_some_fin x xs]

/-- Elementwise `(cv - peak)/peak` on finite cells with non-zero peaks
embeds the rational drawdown. -/
theorem zipDD_map_fin (l m : List ℚ) (hm : ∀ b ∈ m, b ≠ 0) :
    List.zipWith (fun cv rm => PV.div (PV.sub cv rm) rm) (l.map PV.fin) (m.map PV.fin)
      = (List.zipWith (fun a b => (a - b) / b) l m).map PV.fin := by
  induction l generalizing m with
  | nil => simp
  | cons x xs ih =>
      cases m with
      | nil => simp
      | cons y ys =>
          have hy : y ≠ 0 := hm y (List.mem_cons_self y ys)
          simp only [List.map_cons, List.zipWith_cons_cons]
          congr 1
          · show PV.div (PV.fin (x + -y)) (PV.fin y) = PV.fin ((x - y) / y)
            simp [PV.div, hy, sub_eq_add_neg]
          · exact ih ys fun b hb => hm b (List.mem_cons_of_mem y hb)

/-- The NaN-skipping minimum fold on finite cells embeds the rational
minimum fold. -/
theorem minAux_some_fin (b : ℚ) (l : List ℚ) :
    minAux (some (PV.fin b)) (l.map PV.fin) = some (PV.fin (minQAux b l)) := by
  induction l generalizing b with
  | nil => rfl
  | cons x xs ih =>
      simp only [List.map_cons, minAux, minQAux, PV.isNaN,
        Bool.false_eq_true, if_false]
      show minAux (some (PV.fin (min b x))) (xs.map PV.fin) = _
      exact ih (min b x)

/-- The column minimum of a non-empty finite column embeds the rational
minimum. -/
theorem minPV_map_fin (l : List ℚ) (hl : l ≠ []) :
    minPV (l.map PV.fin) = PV.fin (minQ l) := by
  cases l with
  | nil => exact absurd rfl hl
  | cons x xs =>
      unfold minPV
      simp only [List.map_cons, minAux, minQ, PV.isNaN,
        Bool.false_eq_true, if_false]
      rw [minAux_some_fin x xs]
      rfl

/-- On a positive series every compounding factor `1 + r` is positive. -/
theorem specReturnsAux_pos (prev : ℚ) (xs : List ℚ) (hprev : 0 < prev)
    (hxs : ∀ x ∈ xs, 0 < x) : ∀ r ∈ specReturnsAux prev xs, 0 < 1 + r := by
  induction xs generalizing prev with
  | nil => intro r hr; simp [specReturnsAux] at hr
  | cons x tl ih =>
      intro r hr
      have hx : 0 < x := hxs x (List.mem_cons_self x tl)
      simp only [specReturnsAux, List.mem_cons] at hr
      rcases hr with rfl | hr
      · have he : 1 + (x / prev - 1) = x / prev := by ring
        rw [he]
        exact div_pos hx hprev
      · exact ih x hx (fun y hy => hxs y (List.mem_cons_of_mem x hy)) r hr

/-- On a positive series every specification compounding factor is
positive. -/
theorem specReturns_pos (cs : List ℚ) (hpos : ∀ x ∈ cs, 0 < x) :
    ∀ r ∈ specReturns cs, 0 < 1 + r := by
  cases cs with
  | nil => intro r hr; simp [specReturns] at hr
  | cons x xs =>
      exact specReturnsAux_pos x xs (hpos x (List.mem_cons_self x xs))
        fun y hy => hpos y (List.mem_cons_of_mem x hy)

/-- Running products of positive factors from a positive seed are
positive. -/
theorem cumprodQ_pos (a : ℚ) (l : List ℚ) (ha : 0 < a)
    (hl : ∀ x ∈ l, 0 < x) : ∀ y ∈ cumprodQ a l, 0 < y := by
  induction l generalizing a with
  | nil => intro y hy; simp [cumprodQ] at hy
  | cons x xs ih =>
      intro y hy
      have hx : 0 < x := hl x (List.mem_cons_self x xs)
      simp only [cumprodQ, List.mem_cons] at hy
      rcases hy with rfl | hy
      · exact mul_pos ha hx
      · exact ih (a * x) (mul_pos ha hx)
          (fun z hz => hl z (List.mem_cons_of_mem x hz)) y hy

/-- Running maxima of positive values from a positive best are positive. -/
theorem runMaxQAux_pos (b : ℚ) (l : List ℚ) (hb : 0 < b)
    (hl : ∀ x ∈ l, 0 < x) : ∀ y ∈ runMaxQAux b l, 0 < y := by
  induction l generalizing b with
  | nil => intro y hy; simp [runMaxQAux] at hy
  | cons x xs ih =>
      intro y hy
      have hbx : 0 < max b x := lt_max_of_lt_left hb
      simp only [runMaxQAux, List.mem_cons] at hy
      rcases hy with rfl | hy
      · exact hbx
      · exact ih (max b x) hbx (fun z hz => hl z (List.mem_cons_of_mem x hz)) y hy

/-- Running maxima of a positive list are positive. -/
theorem runMaxQ_pos (l : List ℚ) (hl : ∀ x ∈ l, 0 < x) :
    ∀ y ∈ runMaxQ l, 0 < y := by
  cases l with
  | nil => intro y hy; simp [runMaxQ] at hy
  | cons x xs =>
      intro y hy
      have hx : 0 < x := hl x (List.mem_cons_self x xs)
      simp only [runMaxQ, List.mem_cons] at hy
      rcases hy with rfl | hy
      · exact hx
      · exact runMaxQAux_pos x xs hx
          (fun z hz => hl z (List.mem_cons_of_mem x hz)) y hy

/-- A series of at least two bars has at least one daily return. -/
theorem specReturns_ne_nil (cs : List ℚ) (h : 2 ≤ cs.length) :
    specReturns cs ≠ [] := by
  rcases cs with _ | ⟨x, _ | ⟨y, tl⟩⟩
  · simp at h
  · simp at h
  · simp [specReturns, specReturnsAux]

/-- Running products of a non-empty list are non-empty. -/
theorem cumprodQ_ne_nil (a : ℚ) (l : List ℚ) (h : l ≠ []) :
    cumprodQ a l ≠ [] := by
  cases l with
  | nil => exact absurd rfl h
  | cons x xs => simp [cumprodQ]

/-- C1 (amended).  For a series of at least two positive closes the
Metrics Calculator's Max Drawdown equals the minimum of
`(cumVal[t] - runningMax(cumVal)[t]) / runningMax(cumVal)[t]` where
`cumVal` is the compounded daily-return series **without** a leading 1 —
i.e. `1+r[1], (1+r[1])(1+r[2]), ...` exactly as `(1+returns).cumprod()`
builds it; the code never sees the initial value 1 as a peak. -/
theorem spec_C1 (cs : List ℚ) (h2 : 2 ≤ cs.length) (hpos : ∀ x ∈ cs, 0 < x) :
    kmMaxDrawdown cs = PV.fin (kmMaxDrawdownAmendedQ cs) := by
  unfold kmMaxDrawdown drawdownPV kmMaxDrawdownAmendedQ drawdownQ
  have hfac : ∀ x ∈ (specReturns cs).map (fun r => 1 + r), 0 < x := by
    intro x hx
    rcases List.mem_map.mp hx with ⟨r, hr, rfl⟩
    exact specReturns_pos cs hpos r hr
  have hcv : ∀ y ∈ cumprodQ 1 ((specReturns cs).map (fun r => 1 + r)), 0 < y :=
    cumprodQ_pos 1 _ one_pos hfac
  have hrm : ∀ b ∈ runMaxQ (cumprodQ 1 ((specReturns cs).map (fun r => 1 + r))),
      b ≠ 0 := fun b hb => (runMaxQ_pos _ hcv b hb).ne'
  have hnil : cumprodQ 1 ((specReturns cs).map (fun r => 1 + r)) ≠ [] :=
    cumprodQ_ne_nil 1 _ (by
      intro hmap
      exact specReturns_ne_nil cs h2 (List.map_eq_nil_iff.mp hmap))
  have hznil : List.zipWith (fun a b => (a - b) / b)
      (cumprodQ 1 ((specReturns cs).map (fun r => 1 + r)))
      (runMaxQ (cumprodQ 1 ((specReturns cs).map (fun r => 1 + r)))) ≠ [] := by
    rcases hcons : cumprodQ 1 ((specReturns cs).map (fun r => 1 + r)) with _ | ⟨v, vs⟩
    · exact absurd hcons hnil
    · simp [runMaxQ]
  rw [kmReturns_pos cs hpos, map_add_one_fin, cumprodSkip_map_fin,
    expandingMax_map_fin, zipDD_map_fin _ _ hrm, minPV_map_fin _ hznil]

/-- Counterexample for C1: on the two-bar positive series `[100, 50]` the
source computes Max Drawdown 0 (the compounded series `[0.5]` is its own
running peak), while the claim's formula — whose `cumVal` series starts
at the value 1 — gives -1/2. -/
theorem spec_C1_cex :
    (kmMaxDrawdown [100, 50] = PV.fin (kmMaxDrawdownClaimQ [100, 50])) = False ∧
    kmMaxDrawdown [100, 50] = PV.fin 0 ∧
    kmMaxDrawdownClaimQ [100, 50] = -(1 / 2) :=
  ⟨eq_false (by decide), by decide, by decide⟩

/-- Witness for C1 on a concrete four-bar series. -/
theorem spec_C1_wit :
    (2 ≤ ([4, 8, 6, 3] : List ℚ).length ∧ (∀ x ∈ ([4, 8, 6, 3] : List ℚ), 0 < x)) ∧
    kmMaxDrawdown [4, 8, 6, 3] = PV.fin (kmMaxDrawdownAmendedQ [4, 8, 6, 3]) :=
  ⟨⟨by decide, by decide⟩, spec_C1 [4, 8, 6, 3] (by decide) (by decide)⟩
